import Mathlib

/-!
Verification of the nuclide definition-preview extractor
(`pkg/nuclide-definition-preview-rpc/lib/DefinitionPreviewService.js`) and the
GraphQL definition-lookup helpers
(`pkg/nuclide-graphql-language-service/lib/interfaces/getDefinition.js`).

The JavaScript sources are shallowly embedded: strings stay `String`, JS
arrays become `List`, nullable fields become `Option`, and code that can
throw (the `invariant` assertions) returns `Except String`.  Helpers that
live outside the reviewed slice (`offsetToPoint`, `locToRange`, `dedent`,
`countOccurrences`) are modelled from the specification, as marked on each.
-/

namespace Nuclide

/-! ## String helpers -/

/-- Model of the JavaScript whitespace class `\s` for the ASCII range:
space, tab, line feed, vertical tab, form feed, carriage return. -/
def jsIsSpace (c : Char) : Bool :=
  c = ' ' || c = '\t' || c = '\n' || c = '\x0b' || c = '\x0c' || c = '\r'

/-- Splits a character list at every occurrence of `c`, keeping empty
pieces, as JavaScript `String.prototype.split` does for a one-character
separator.  `splitOnCharList c []` is `[[]]`, matching `"".split(c)`. -/
def splitOnCharList (c : Char) : List Char → List (List Char)
  | [] => [[]]
  | ch :: rest =>
    let r := splitOnCharList c rest
    if ch = c then [] :: r
    else
      match r with
      | [] => [[ch]]
      | h :: t => (ch :: h) :: t

/-- Model of JavaScript `s.split(c)` for a single-character separator. -/
def jsSplit (s : String) (c : Char) : List String :=
  (splitOnCharList c s.toList).map String.mk

/-- Modelled from the spec: `countOccurrences` from `nuclide-commons/string`
(not part of the reviewed slice) counts the occurrences of a character in a
string; the spec uses it to "track a running count of `(` characters and
`)` characters". -/
def countOccurrences (s : String) (c : Char) : Nat :=
  (s.toList.filter (fun ch => ch = c)).length

/-- `getIndentLevel` from `DefinitionPreviewService.js`: the length of the
match of `/^\s*/`, i.e. the number of leading whitespace characters. -/
def getIndentLevel (line : String) : Nat :=
  (line.toList.takeWhile jsIsSpace).length

/-- Number of `(` characters on a line. -/
def lineOpens (line : String) : Nat := countOccurrences line '('

/-- Number of `)` characters on a line. -/
def lineCloses (line : String) : Nat := countOccurrences line ')'

/-! ## Dedent (modelled) -/

/-- Modelled from the spec: the dedent transform "removes the minimal
common leading indentation shared by all non-empty lines (standard
de-indent/dedent transform)", applied here linewise.  (The `dedent` npm
package is not part of the reviewed slice.) -/
def dedentLines (ls : List String) : List String :=
  let nonEmpty := ls.filter (fun l => l ≠ "")
  let minIndent :=
    match nonEmpty.map getIndentLevel with
    | [] => 0
    | x :: xs => xs.foldl min x
  ls.map (fun l => l.drop minIndent)

/-- Modelled from the spec: joins the dedented lines back with newlines. -/
def dedent (s : String) : String :=
  String.intercalate "\n" (dedentLines (jsSplit s '\n'))

/-! ## Preview extractor (`DefinitionPreviewService.js`) -/

/-- `MAX_PREVIEW_LINES` from `DefinitionPreviewService.js`. -/
def MAX_PREVIEW_LINES : Nat := 10

/-- The scanning loop of `getDefinitionPreview`, acting on the suffix of
the line list that starts at the definition's row.  `fuel` is the number of
loop iterations still allowed by the `i < start + MAX_PREVIEW_LINES` bound
(initially `MAX_PREVIEW_LINES`); running off the list models
`i < lines.length` failing.  `op` and `cl` carry the cumulative `(` and `)`
counts accumulated so far. -/
def scanGo (init : Nat) : Nat → Nat → Nat → List String → List String
  | 0, _, _, _ => []
  | _ + 1, _, _, [] => []
  | fuel + 1, op, cl, line :: rest =>
    let opNew := op + lineOpens line
    let clNew := cl + lineCloses line
    if getIndentLevel line ≤ init ∧ opNew = clNew then [line]
    else line :: scanGo init fuel opNew clNew rest

/-- The buffer built by `getDefinitionPreview` for a file with contents
`contents` and a definition at row `row`: the lines pushed before the loop
exits. -/
def previewLines (contents : String) (row : Nat) : List String :=
  let lines := jsSplit contents '\n'
  scanGo (getIndentLevel (lines.getD row "")) MAX_PREVIEW_LINES 0 0 (lines.drop row)

/-- `getDefinitionPreview` from `DefinitionPreviewService.js`, with the file
read replaced by its result `contents` (the definition's `position.row` is
the `row` argument): scan from the definition's row, join the buffer with
newlines and dedent. -/
def getDefinitionPreview (contents : String) (row : Nat) : String :=
  dedent (String.intercalate "\n" (previewLines contents row))

/-- The loop's exit condition, expressed over the suffix `ls` of the line
list starting at the definition's row: line `k` (0-based in `ls`) has
indentation at most `init` and the cumulative `(` count over lines
`0..k` equals the cumulative `)` count. -/
def stopCond (init : Nat) (ls : List String) (k : Nat) : Prop :=
  getIndentLevel (ls.getD k "") ≤ init ∧
    ((ls.take (k + 1)).map lineOpens).sum = ((ls.take (k + 1)).map lineCloses).sum

instance (init : Nat) (ls : List String) (k : Nat) : Decidable (stopCond init ls k) := by
  unfold stopCond; infer_instance

/-! ## GraphQL definition lookup (`getDefinition.js`) data model -/

/-- A source-location span of a syntax node, in flat character offsets.
The source field `end` is a Lean keyword, so it is called `endPos` here. -/
structure Loc where
  start : Nat
  endPos : Nat
deriving DecidableEq, Repr

/-- A GraphQL `Name` node: its identifier text and an optional location. -/
structure NameNode where
  value : String
  loc : Option Loc
deriving DecidableEq, Repr

/-- A fragment spread node: the referenced name and the spread's own
location in the referencing text. -/
structure FragmentSpreadNode where
  name : NameNode
  loc : Loc
deriving DecidableEq, Repr

/-- A fragment or operation definition node as consumed by
`getDefinitionForFragmentDefinition`: the name is optional (operation
definitions may be anonymous), checked by `invariant` at use sites. -/
structure DefinitionNode where
  name : Option NameNode
  loc : Loc
deriving DecidableEq, Repr

/-- A fragment definition node as carried by `FragmentInfo`: GraphQL
fragment definitions always carry a name node. -/
structure FragmentDefinitionNode where
  name : NameNode
  loc : Loc
deriving DecidableEq, Repr

/-- View of a fragment definition as a general definition node. -/
def FragmentDefinitionNode.toDefinitionNode (d : FragmentDefinitionNode) : DefinitionNode :=
  { name := some d.name, loc := d.loc }

/-- `FragmentInfo` from the resolver's types: one known fragment
declaration, with an optional file path, the declaring file's full text,
and the parsed definition node. -/
structure FragmentInfo where
  filePath : Option String
  content : String
  definition : FragmentDefinitionNode
deriving DecidableEq, Repr

/-- A zero-based (row, column) position in a text. -/
structure Position where
  row : Nat
  column : Nat
deriving DecidableEq, Repr

/-- A textual range: start and end positions (source field `end`). -/
structure Range where
  start : Position
  endPos : Position
deriving DecidableEq, Repr

/-- A resolved `Definition` record. -/
structure Definition where
  path : String
  position : Position
  range : Range
  name : String
  language : String
  projectRoot : String
deriving DecidableEq, Repr

/-- The result of a definition lookup. -/
structure DefinitionQueryResult where
  definitions : List Definition
  queryRange : List Range
deriving DecidableEq, Repr

/-- `LANGUAGE` from `getDefinition.js`. -/
def LANGUAGE : String := "GraphQL"

/-- Modelled from the spec: `offsetToPoint` from `utils/Range.js` (not part
of the reviewed slice) converts a flat character offset into a (row,
column) pair: "count newline characters before the offset for the row, and
the distance from the preceding newline (or text start) to the offset for
the column". -/
def offsetToPoint (text : String) (offset : Nat) : Position :=
  let pre := text.toList.take offset
  { row := (pre.filter (fun c => c = '\n')).length,
    column := (pre.reverse.takeWhile (fun c => c ≠ '\n')).length }

/-- Modelled from the spec: `locToRange` from `utils/Range.js` (not part of
the reviewed slice) converts a location span into a `Range` by applying the
offset-to-position conversion to both endpoints. -/
def locToRange (text : String) (loc : Loc) : Range :=
  { start := offsetToPoint text loc.start, endPos := offsetToPoint text loc.endPos }

/-! ## GraphQL definition lookup operations -/

/-- Model of the JavaScript expression `xs === []`: comparing an array to a
fresh empty-array literal with strict (reference) equality is `false` for
every `xs`, including an empty one. -/
def jsStrictEqEmptyArrayLiteral {α : Type} (_xs : List α) : Bool := false

/-- `getDefinitionForFragmentDefinition` from `getDefinition.js`.  The two
`invariant` calls become `Except.error` with the assertion messages. -/
def getDefinitionForFragmentDefinition (path : String) (text : String)
    (definition : DefinitionNode) : Except String Definition :=
  match definition.name with
  | none => .error "Name node expected."
  | some name =>
    match name.loc with
    | none => .error "Location for Name node expected."
    | some nameLoc =>
      .ok { path := path,
            position := offsetToPoint text nameLoc.start,
            range := locToRange text definition.loc,
            name := name.value,
            language := LANGUAGE,
            projectRoot := path }

/-- The `defNodes.map(({filePath, content, definition}) => ...)` step of
`getDefinitionQueryResultForFragmentSpread`: builds one `Definition` per
matched entry, with `filePath || ''` as the path; a thrown `invariant`
inside the map aborts the whole call. -/
def mapDefs : List FragmentInfo → Except String (List Definition)
  | [] => .ok []
  | d :: rest =>
    match getDefinitionForFragmentDefinition (d.filePath.getD "") d.content
        d.definition.toDefinitionNode with
    | .error e => .error e
    | .ok defn =>
      match mapDefs rest with
      | .error e => .error e
      | .ok defs => .ok (defn :: defs)

/-- `getDefinitionQueryResultForFragmentSpread` from `getDefinition.js`.
The second component of the result collects the messages written to
`process.stderr` during the call (the diagnostic side-channel). -/
def getDefinitionQueryResultForFragmentSpread (text : String)
    (fragment : FragmentSpreadNode) (dependencies : List FragmentInfo) :
    Except String (DefinitionQueryResult × List String) :=
  let name := fragment.name.value
  let defNodes := dependencies.filter (fun d => d.definition.name.value == name)
  if jsStrictEqEmptyArrayLiteral defNodes then
    .ok ({ queryRange := [], definitions := [] },
         ["Definition not found for GraphQL fragment " ++ name])
  else
    match mapDefs defNodes with
    | .error e => .error e
    | .ok definitions =>
      .ok ({ definitions := definitions,
             queryRange := definitions.map (fun _ => locToRange text fragment.loc) }, [])

/-- `getDefinitionQueryResultForDefinitionNode` from `getDefinition.js`.
The object literal evaluates `getDefinitionForFragmentDefinition` before
`locToRange(text, name.loc)`, so a missing `name.loc` surfaces as the
builder's `invariant` failure; the final branch on `name.loc` is therefore
unreachable in the `none` case. -/
def getDefinitionQueryResultForDefinitionNode (path : String) (text : String)
    (definition : DefinitionNode) : Except String DefinitionQueryResult :=
  match definition.name with
  | none => .error "Name node expected."
  | some name =>
    match getDefinitionForFragmentDefinition path text definition with
    | .error e => .error e
    | .ok d =>
      match name.loc with
      | none => .error "Location for Name node expected."
      | some nameLoc =>
        .ok { definitions := [d], queryRange := [locToRange text nameLoc] }

/-! ## Scanner lemmas -/

/-- The index (0-based within the scanned suffix) at which the scanning
loop of `getDefinitionPreview` takes its `break`, if it does so within
`fuel` iterations: the first line with indentation at most `init` at which
the accumulated parenthesis counts (started from `op` and `cl`) agree. -/
def firstStop (init : Nat) : Nat → Nat → Nat → List String → Option Nat
  | 0, _, _, _ => none
  | _ + 1, _, _, [] => none
  | fuel + 1, op, cl, line :: rest =>
    let opNew := op + lineOpens line
    let clNew := cl + lineCloses line
    if getIndentLevel line ≤ init ∧ opNew = clNew then some 0
    else (firstStop init fuel opNew clNew rest).map (fun k => k + 1)

/-- `stopCond` generalised over already-accumulated parenthesis counts. -/
def qual (init op cl : Nat) (ls : List String) (k : Nat) : Prop :=
  getIndentLevel (ls.getD k "") ≤ init ∧
    op + ((ls.take (k + 1)).map lineOpens).sum =
      cl + ((ls.take (k + 1)).map lineCloses).sum

instance (init op cl : Nat) (ls : List String) (k : Nat) :
    Decidable (qual init op cl ls k) := by
  unfold qual; infer_instance

theorem stopCond_iff_qual (init : Nat) (ls : List String) (k : Nat) :
    stopCond init ls k ↔ qual init 0 0 ls k := by
  simp [stopCond, qual]

theorem qual_zero (init op cl : Nat) (l : String) (rest : List String) :
    qual init op cl (l :: rest) 0 ↔
      (getIndentLevel l ≤ init ∧ op + lineOpens l = cl + lineCloses l) := by
  simp [qual]

theorem qual_succ (init op cl : Nat) (l : String) (rest : List String) (k : Nat) :
    qual init op cl (l :: rest) (k + 1) ↔
      qual init (op + lineOpens l) (cl + lineCloses l) rest k := by
  simp [qual, Nat.add_assoc]

theorem scanGo_length_le (init : Nat) : ∀ (fuel op cl : Nat) (ls : List String),
    (scanGo init fuel op cl ls).length ≤ fuel := by
  intro fuel
  induction fuel with
  | zero => intro op cl ls; simp [scanGo]
  | succ n ih =>
    intro op cl ls
    cases ls with
    | nil => simp [scanGo]
    | cons l rest =>
      simp only [scanGo]
      split
      · simp
      · simpa using Nat.succ_le_succ (ih _ _ rest)

theorem scanGo_eq_firstStop (init : Nat) : ∀ (fuel op cl : Nat) (ls : List String),
    scanGo init fuel op cl ls =
      (match firstStop init fuel op cl ls with
       | some k => ls.take (k + 1)
       | none => ls.take fuel) := by
  intro fuel
  induction fuel with
  | zero => intro op cl ls; simp [scanGo, firstStop]
  | succ n ih =>
    intro op cl ls
    cases ls with
    | nil => simp [scanGo, firstStop]
    | cons l rest =>
      simp only [scanGo, firstStop]
      split
      · simp
      · rw [ih]
        cases h : firstStop init n (op + lineOpens l) (cl + lineCloses l) rest <;>
          simp [h, List.take_succ_cons]

theorem firstStop_eq_some_iff (init : Nat) (ls : List String) :
    ∀ (fuel op cl k : Nat),
    firstStop init fuel op cl ls = some k ↔
      (k < fuel ∧ k < ls.length ∧ qual init op cl ls k ∧
        ∀ j < k, ¬ qual init op cl ls j) := by
  induction ls with
  | nil => intro fuel op cl k; cases fuel <;> simp [firstStop]
  | cons l rest ih =>
    intro fuel op cl k
    cases fuel with
    | zero => simp [firstStop]
    | succ n =>
      simp only [firstStop]
      split
      case isTrue h =>
        constructor
        · intro hk
          obtain rfl : k = 0 := by simpa using hk.symm
          refine ⟨Nat.succ_pos n, Nat.succ_pos _, (qual_zero init op cl l rest).mpr h, ?_⟩
          intro j hj; omega
        · rintro ⟨-, -, -, hmin⟩
          cases k with
          | zero => rfl
          | succ m =>
            exact absurd ((qual_zero init op cl l rest).mpr h)
              (hmin 0 (Nat.succ_pos m))
      case isFalse h =>
        cases k with
        | zero =>
          constructor
          · intro hk
            rcases Option.map_eq_some'.mp hk with ⟨k', -, hk'⟩
            omega
          · rintro ⟨-, -, hq, -⟩
            exact absurd ((qual_zero init op cl l rest).mp hq) h
        | succ m =>
          have lhs : ((firstStop init n (op + lineOpens l) (cl + lineCloses l) rest).map
              (fun k => k + 1) = some (m + 1)) ↔
              firstStop init n (op + lineOpens l) (cl + lineCloses l) rest = some m := by
            constructor
            · intro hk
              rcases Option.map_eq_some'.mp hk with ⟨k', hk', heq⟩
              obtain rfl : k' = m := by omega
              exact hk'
            · intro hk; simp [hk]
          rw [lhs, ih n (op + lineOpens l) (cl + lineCloses l) m]
          constructor
          · rintro ⟨h1, h2, h3, h4⟩
            refine ⟨by omega, by simpa using Nat.succ_lt_succ h2,
              (qual_succ init op cl l rest m).mpr h3, ?_⟩
            intro j hj
            cases j with
            | zero => exact fun hq => h ((qual_zero init op cl l rest).mp hq)
            | succ i =>
              intro hq
              exact h4 i (by omega) ((qual_succ init op cl l rest i).mp hq)
          · rintro ⟨h1, h2, h3, h4⟩
            refine ⟨by omega, by simpa using Nat.lt_of_succ_lt_succ h2,
              (qual_succ init op cl l rest m).mp h3, ?_⟩
            intro i hi hq
            exact h4 (i + 1) (by omega) ((qual_succ init op cl l rest i).mpr hq)

theorem firstStop_eq_none_iff (init : Nat) (ls : List String) (fuel op cl : Nat) :
    firstStop init fuel op cl ls = none ↔
      ∀ k, k < fuel → k < ls.length → ¬ qual init op cl ls k := by
  constructor
  · intro hnone k hk1 hk2 hq
    have hex : ∃ m, qual init op cl ls m := ⟨k, hq⟩
    have hq0 := Nat.find_spec hex
    have hle : Nat.find hex ≤ k := Nat.find_le hq
    have hmin : ∀ j < Nat.find hex, ¬ qual init op cl ls j :=
      fun j hj => Nat.find_min hex hj
    have := (firstStop_eq_some_iff init ls fuel op cl (Nat.find hex)).mpr
      ⟨by omega, by omega, hq0, hmin⟩
    rw [hnone] at this
    exact Option.noConfusion this
  · intro hall
    cases hstop : firstStop init fuel op cl ls with
    | none => rfl
    | some k =>
      obtain ⟨h1, h2, h3, -⟩ := (firstStop_eq_some_iff init ls fuel op cl k).mp hstop
      exact absurd h3 (hall k h1 h2)

/-! ## Claims about the preview extractor -/

/-- C1: starting at line `row`, the scan of `getDefinitionPreview` appends
lines one at a time and stops, inclusive of the current line, at the first
line whose leading-whitespace count is at most that of line `row` and at
which the cumulative `(` count over all scanned lines equals the cumulative
`)` count; the returned string is those lines joined with newlines and
dedented. -/
theorem getDefinitionPreview_stops_at_first_balanced_line
    (contents : String) (row k : Nat)
    (hk10 : k < MAX_PREVIEW_LINES)
    (hklen : k < ((jsSplit contents '\n').drop row).length)
    (hstop : stopCond (getIndentLevel ((jsSplit contents '\n').getD row ""))
      ((jsSplit contents '\n').drop row) k)
    (hfirst : ∀ j < k,
      ¬ stopCond (getIndentLevel ((jsSplit contents '\n').getD row ""))
        ((jsSplit contents '\n').drop row) j) :
    getDefinitionPreview contents row =
      dedent (String.intercalate "\n"
        (((jsSplit contents '\n').drop row).take (k + 1))) := by
  have hsome : firstStop (getIndentLevel ((jsSplit contents '\n').getD row ""))
      MAX_PREVIEW_LINES 0 0 ((jsSplit contents '\n').drop row) = some k :=
    (firstStop_eq_some_iff _ _ _ _ _ _).mpr ⟨hk10, hklen,
      (stopCond_iff_qual _ _ _).mp hstop,
      fun j hj hq => hfirst j hj ((stopCond_iff_qual _ _ _).mpr hq)⟩
  simp only [getDefinitionPreview, previewLines]
  rw [scanGo_eq_firstStop, hsome]

/-- C1 witness at a concrete input: a one-line signature whose parens
balance on its own line is returned as exactly that line. -/
theorem getDefinitionPreview_stops_at_first_balanced_line_witness :
    getDefinitionPreview "def f(x):\n  return x" 0 =
      dedent (String.intercalate "\n"
        (((jsSplit "def f(x):\n  return x" '\n').drop 0).take 1)) :=
  getDefinitionPreview_stops_at_first_balanced_line "def f(x):\n  return x" 0 0
    (by decide) (by decide) (by decide) (by decide)

/-- C2: the scan of `getDefinitionPreview` buffers at most
`MAX_PREVIEW_LINES = 10` lines; the returned string is the dedented join of
that buffer; and when no line within the scanned window satisfies the stop
condition, the buffer is exactly the first 10 lines from `row` (truncated
at end of file). -/
theorem getDefinitionPreview_ten_line_cap (contents : String) (row : Nat) :
    (previewLines contents row).length ≤ MAX_PREVIEW_LINES ∧
    getDefinitionPreview contents row =
      dedent (String.intercalate "\n" (previewLines contents row)) ∧
    ((∀ k, k < MAX_PREVIEW_LINES → k < ((jsSplit contents '\n').drop row).length →
        ¬ stopCond (getIndentLevel ((jsSplit contents '\n').getD row ""))
          ((jsSplit contents '\n').drop row) k) →
      previewLines contents row =
        ((jsSplit contents '\n').drop row).take MAX_PREVIEW_LINES) := by
  refine ⟨scanGo_length_le _ _ _ _ _, rfl, ?_⟩
  intro hnostop
  have hnone : firstStop (getIndentLevel ((jsSplit contents '\n').getD row ""))
      MAX_PREVIEW_LINES 0 0 ((jsSplit contents '\n').drop row) = none :=
    (firstStop_eq_none_iff _ _ _ _ _).mpr
      (fun k hk1 hk2 hq => hnostop k hk1 hk2 ((stopCond_iff_qual _ _ _).mpr hq))
  simp only [previewLines]
  rw [scanGo_eq_firstStop, hnone]

/-- C2 witness at a concrete input: a lone line with an unbalanced `(`
never satisfies the stop condition, so the buffer is the 10-line (here
end-of-file) window. -/
theorem getDefinitionPreview_ten_line_cap_witness :
    previewLines "f(" 0 = ((jsSplit "f(" '\n').drop 0).take MAX_PREVIEW_LINES :=
  (getDefinitionPreview_ten_line_cap "f(" 0).2.2 (by decide)

/-! ## Lookup lemmas -/

theorem getDefinitionForFragmentDefinition_ok_of_loc (path text : String)
    (d : FragmentDefinitionNode) (l : Loc) (hl : d.name.loc = some l) :
    getDefinitionForFragmentDefinition path text d.toDefinitionNode =
      .ok { path := path, position := offsetToPoint text l.start,
            range := locToRange text d.loc, name := d.name.value,
            language := LANGUAGE, projectRoot := path } := by
  simp [getDefinitionForFragmentDefinition, FragmentDefinitionNode.toDefinitionNode, hl]

theorem getDefinitionForFragmentDefinition_path_eq (path text : String)
    (dn : DefinitionNode) (defn : Definition)
    (h : getDefinitionForFragmentDefinition path text dn = .ok defn) :
    defn.path = path ∧ defn.projectRoot = path := by
  cases hn : dn.name with
  | none => simp [getDefinitionForFragmentDefinition, hn] at h
  | some name =>
    cases hl : name.loc with
    | none => simp [getDefinitionForFragmentDefinition, hn, hl] at h
    | some nameLoc =>
      simp only [getDefinitionForFragmentDefinition, hn, hl] at h
      cases h
      exact ⟨rfl, rfl⟩

theorem mapDefs_forall₂ : ∀ (ds : List FragmentInfo) (defs : List Definition),
    mapDefs ds = .ok defs →
    List.Forall₂ (fun d defn =>
      getDefinitionForFragmentDefinition (d.filePath.getD "") d.content
        d.definition.toDefinitionNode = .ok defn) ds defs := by
  intro ds
  induction ds with
  | nil =>
    intro defs h
    cases h
    exact .nil
  | cons d rest ih =>
    intro defs h
    simp only [mapDefs] at h
    cases hb : getDefinitionForFragmentDefinition (d.filePath.getD "") d.content
        d.definition.toDefinitionNode with
    | error e => rw [hb] at h; exact Except.noConfusion h
    | ok v =>
      rw [hb] at h
      cases hm : mapDefs rest with
      | error e => rw [hm] at h; exact Except.noConfusion h
      | ok defs' =>
        rw [hm] at h
        cases h
        exact .cons hb (ih defs' hm)

theorem mapDefs_ok_of_loc : ∀ (ds : List FragmentInfo),
    (∀ d ∈ ds, d.definition.name.loc ≠ none) →
    ∃ defs, mapDefs ds = .ok defs ∧ defs.length = ds.length := by
  intro ds
  induction ds with
  | nil => intro _; exact ⟨[], rfl, rfl⟩
  | cons d rest ih =>
    intro h
    obtain ⟨defs, hdefs, hlen⟩ := ih (fun x hx => h x (List.mem_cons_of_mem d hx))
    cases hl : d.definition.name.loc with
    | none => exact absurd hl (h d (List.mem_cons_self d rest))
    | some l =>
      refine ⟨{ path := d.filePath.getD "", position := offsetToPoint d.content l.start,
                range := locToRange d.content d.definition.loc,
                name := d.definition.name.value, language := LANGUAGE,
                projectRoot := d.filePath.getD "" } :: defs, ?_, by simp [hlen]⟩
      simp only [mapDefs, getDefinitionForFragmentDefinition_ok_of_loc _ _ _ l hl, hdefs]

theorem map_const_eq_replicate {α β : Type} (l : List α) (c : β) :
    l.map (fun _ => c) = List.replicate l.length c := by
  induction l with
  | nil => rfl
  | cons a t ih => simp [ih, List.replicate_succ]

/-! ## Claims about the GraphQL definition lookup -/

/-- C3: a fragment spread whose name matches `n ≥ 1` known-fragment
entries yields exactly `n` definitions and a `queryRange` of exactly `n`
entries, each equal to the spread token's own range in the referencing
text (duplicated once per match, not deduplicated). -/
theorem getDefinitionQueryResultForFragmentSpread_match_counts
    (text : String) (fragment : FragmentSpreadNode)
    (dependencies : List FragmentInfo) (n : Nat)
    (hn : (dependencies.filter
      (fun d => d.definition.name.value == fragment.name.value)).length = n)
    (_hn1 : 1 ≤ n)
    (hloc : ∀ d ∈ dependencies.filter
        (fun d => d.definition.name.value == fragment.name.value),
      d.definition.name.loc ≠ none) :
    ∃ res : DefinitionQueryResult,
      getDefinitionQueryResultForFragmentSpread text fragment dependencies =
        .ok (res, []) ∧
      res.definitions.length = n ∧
      res.queryRange = List.replicate n (locToRange text fragment.loc) := by
  obtain ⟨defs, hdefs, hlen⟩ := mapDefs_ok_of_loc _ hloc
  refine ⟨⟨defs, defs.map (fun _ => locToRange text fragment.loc)⟩, ?_, ?_, ?_⟩
  · simp [getDefinitionQueryResultForFragmentSpread, jsStrictEqEmptyArrayLiteral, hdefs]
  · rw [hlen, hn]
  · show defs.map _ = _
    rw [map_const_eq_replicate, hlen, hn]

/-- C3 witness: one known fragment named `F` matched by a spread of `F`
gives one definition and one duplicated-range entry. -/
theorem getDefinitionQueryResultForFragmentSpread_match_counts_witness :
    ∃ res : DefinitionQueryResult,
      getDefinitionQueryResultForFragmentSpread "query Q { ...F }"
        { name := { value := "F", loc := some { start := 13, endPos := 14 } },
          loc := { start := 10, endPos := 14 } }
        [{ filePath := some "frag.graphql", content := "fragment F on T",
           definition := { name := { value := "F",
                                     loc := some { start := 9, endPos := 10 } },
                           loc := { start := 0, endPos := 15 } } }] =
        .ok (res, []) ∧
      res.definitions.length = 1 ∧
      res.queryRange = List.replicate 1
        (locToRange "query Q { ...F }" { start := 10, endPos := 14 }) :=
  getDefinitionQueryResultForFragmentSpread_match_counts _ _ _ 1
    (by decide) (by decide) (by decide)

/-- C4: a fragment spread with zero matching known-fragment entries
returns the empty result and no fatal error. -/
theorem getDefinitionQueryResultForFragmentSpread_no_match
    (text : String) (fragment : FragmentSpreadNode)
    (dependencies : List FragmentInfo)
    (h : dependencies.filter
      (fun d => d.definition.name.value == fragment.name.value) = []) :
    getDefinitionQueryResultForFragmentSpread text fragment dependencies =
      .ok ({ definitions := [], queryRange := [] }, []) := by
  simp [getDefinitionQueryResultForFragmentSpread, jsStrictEqEmptyArrayLiteral, h,
    mapDefs]

/-- C4 witness: a spread of `G` against an empty known-fragments list. -/
theorem getDefinitionQueryResultForFragmentSpread_no_match_witness :
    getDefinitionQueryResultForFragmentSpread "query Q { ...G }"
      { name := { value := "G", loc := some { start := 13, endPos := 14 } },
        loc := { start := 10, endPos := 14 } } [] =
      .ok ({ definitions := [], queryRange := [] }, []) :=
  getDefinitionQueryResultForFragmentSpread_no_match _ _ _ rfl

/-- C5: at the failing input (a spread of fragment `F` with an empty
known-fragments list) the call returns the empty result with an empty
diagnostics list: the source's `defNodes === []` check compares against a
fresh array literal by reference and is therefore always false, so the
`process.stderr` write is dead code and no diagnostic is emitted. -/
theorem getDefinitionQueryResultForFragmentSpread_emits_no_diagnostic :
    getDefinitionQueryResultForFragmentSpread "query Z { ...F }"
      { name := { value := "F", loc := some { start := 13, endPos := 14 } },
        loc := { start := 10, endPos := 14 } } [] =
      .ok ({ definitions := [], queryRange := [] }, []) := rfl

/-- C6: for a definition node with a named name node carrying a location,
the lookup returns exactly one `Definition` and exactly one `queryRange`
entry, equal to the range of the name token itself (not of the full
definition node). -/
theorem getDefinitionQueryResultForDefinitionNode_name_range
    (path text : String) (definition : DefinitionNode)
    (name : NameNode) (nameLoc : Loc)
    (hname : definition.name = some name) (hloc : name.loc = some nameLoc) :
    getDefinitionQueryResultForDefinitionNode path text definition =
      .ok { definitions := [{ path := path,
                              position := offsetToPoint text nameLoc.start,
                              range := locToRange text definition.loc,
                              name := name.value,
                              language := LANGUAGE, projectRoot := path }],
            queryRange := [locToRange text nameLoc] } := by
  simp [getDefinitionQueryResultForDefinitionNode,
    getDefinitionForFragmentDefinition, hname, hloc]

/-- C6 witness: the spec's scenario, resolving the definition node of
`query B` in a two-line document: one definition, one query-range entry
covering exactly the name token `B`. -/
theorem getDefinitionQueryResultForDefinitionNode_name_range_witness :
    getDefinitionQueryResultForDefinitionNode "doc.graphql"
      "query A { x }\nquery B { y }"
      { name := some { value := "B", loc := some { start := 20, endPos := 21 } },
        loc := { start := 14, endPos := 27 } } =
      .ok { definitions :=
              [{ path := "doc.graphql",
                 position := offsetToPoint "query A { x }\nquery B { y }" 20,
                 range := locToRange "query A { x }\nquery B { y }"
                   { start := 14, endPos := 27 },
                 name := "B", language := LANGUAGE,
                 projectRoot := "doc.graphql" }],
            queryRange := [locToRange "query A { x }\nquery B { y }"
              { start := 20, endPos := 21 }] } :=
  getDefinitionQueryResultForDefinitionNode_name_range _ _ _ _ _ rfl rfl

/-- C7: the position of a built `Definition` is the name token's start
offset converted to (row, column): the row is the number of newline
characters in the text before the offset and the column is the distance
from the preceding newline (or the text start) to the offset. -/
theorem getDefinitionForFragmentDefinition_position_rowcol
    (path text : String) (definition : DefinitionNode)
    (name : NameNode) (nameLoc : Loc) (defn : Definition)
    (hname : definition.name = some name) (hloc : name.loc = some nameLoc)
    (hok : getDefinitionForFragmentDefinition path text definition = .ok defn) :
    defn.position.row =
      ((text.toList.take nameLoc.start).filter (fun c => c = '\n')).length ∧
    defn.position.column =
      ((text.toList.take nameLoc.start).reverse.takeWhile
        (fun c => c ≠ '\n')).length := by
  simp only [getDefinitionForFragmentDefinition, hname, hloc] at hok
  cases hok
  exact ⟨rfl, rfl⟩

/-- C7 witness: a name token at offset 3 of `"a\nbc"` sits at row 1
(one preceding newline), column 1 (one character after that newline). -/
theorem getDefinitionForFragmentDefinition_position_rowcol_witness :
    (1 : Nat) =
      (("a\nbc".toList.take 3).filter (fun c => c = '\n')).length ∧
    (1 : Nat) =
      (("a\nbc".toList.take 3).reverse.takeWhile (fun c => c ≠ '\n')).length :=
  getDefinitionForFragmentDefinition_position_rowcol "p" "a\nbc"
    { name := some { value := "c", loc := some { start := 3, endPos := 4 } },
      loc := { start := 2, endPos := 4 } }
    { value := "c", loc := some { start := 3, endPos := 4 } }
    { start := 3, endPos := 4 }
    { path := "p", position := { row := 1, column := 1 },
      range := { start := { row := 1, column := 0 },
                 endPos := { row := 1, column := 2 } },
      name := "c", language := "GraphQL", projectRoot := "p" }
    rfl rfl rfl

/-- C8: the definition builder fails fast with `Name node expected.` when
the name node is missing and with `Location for Name node expected.` when
the name's location is missing (and `getDefinitionQueryResultForDefinitionNode`
propagates those failures); with both present the failure branches are
unreachable and a `Definition` is produced. -/
theorem getDefinitionForFragmentDefinition_fails_fast
    (path text : String) (definition : DefinitionNode) :
    (definition.name = none →
      getDefinitionForFragmentDefinition path text definition =
        .error "Name node expected." ∧
      getDefinitionQueryResultForDefinitionNode path text definition =
        .error "Name node expected.") ∧
    (∀ name, definition.name = some name → name.loc = none →
      getDefinitionForFragmentDefinition path text definition =
        .error "Location for Name node expected." ∧
      getDefinitionQueryResultForDefinitionNode path text definition =
        .error "Location for Name node expected.") ∧
    (∀ name nameLoc, definition.name = some name → name.loc = some nameLoc →
      ∃ defn, getDefinitionForFragmentDefinition path text definition = .ok defn) := by
  refine ⟨?_, ?_, ?_⟩
  · intro h
    constructor <;>
      simp [getDefinitionForFragmentDefinition,
        getDefinitionQueryResultForDefinitionNode, h]
  · intro name hn hl
    constructor <;>
      simp [getDefinitionForFragmentDefinition,
        getDefinitionQueryResultForDefinitionNode, hn, hl]
  · intro name nameLoc hn hl
    exact ⟨{ path := path, position := offsetToPoint text nameLoc.start,
             range := locToRange text definition.loc, name := name.value,
             language := LANGUAGE, projectRoot := path },
           by simp [getDefinitionForFragmentDefinition, hn, hl]⟩

/-- C8 witness: a node with no name, and a node whose name has no
location, at concrete inputs. -/
theorem getDefinitionForFragmentDefinition_fails_fast_witness :
    getDefinitionForFragmentDefinition "p" "t"
      { name := none, loc := { start := 0, endPos := 0 } } =
      .error "Name node expected." ∧
    getDefinitionForFragmentDefinition "p" "t"
      { name := some { value := "F", loc := none },
        loc := { start := 0, endPos := 0 } } =
      .error "Location for Name node expected." :=
  ⟨((getDefinitionForFragmentDefinition_fails_fast "p" "t"
      { name := none, loc := { start := 0, endPos := 0 } }).1 rfl).1,
   ((getDefinitionForFragmentDefinition_fails_fast "p" "t"
      { name := some { value := "F", loc := none },
        loc := { start := 0, endPos := 0 } }).2.1
      { value := "F", loc := none } rfl rfl).1⟩

/-- C9: all three operations are deterministic: as pure functions of their
inputs (with the file read replaced by the delivered contents), two calls
on identical inputs return identical results. -/
theorem lookup_and_preview_deterministic
    (text : String) (fragment : FragmentSpreadNode)
    (dependencies : List FragmentInfo) (path : String)
    (definition : DefinitionNode) (contents : String) (row : Nat) :
    getDefinitionQueryResultForFragmentSpread text fragment dependencies =
      getDefinitionQueryResultForFragmentSpread text fragment dependencies ∧
    getDefinitionQueryResultForDefinitionNode path text definition =
      getDefinitionQueryResultForDefinitionNode path text definition ∧
    getDefinitionPreview contents row = getDefinitionPreview contents row :=
  ⟨rfl, rfl, rfl⟩

/-- C10: every matched known-fragment entry whose `filePath` is absent
yields a `Definition` whose `path` — and `projectRoot`, which is set to the
same value — is the empty string. -/
theorem getDefinitionQueryResultForFragmentSpread_missing_filePath
    (text : String) (fragment : FragmentSpreadNode)
    (dependencies : List FragmentInfo)
    (res : DefinitionQueryResult) (diags : List String)
    (h : getDefinitionQueryResultForFragmentSpread text fragment dependencies =
      .ok (res, diags)) :
    List.Forall₂ (fun d defn => d.filePath = none →
        defn.path = "" ∧ defn.projectRoot = "")
      (dependencies.filter
        (fun d => d.definition.name.value == fragment.name.value))
      res.definitions := by
  simp only [getDefinitionQueryResultForFragmentSpread,
    jsStrictEqEmptyArrayLiteral, Bool.false_eq_true, if_false] at h
  cases hm : mapDefs (dependencies.filter
      (fun d => d.definition.name.value == fragment.name.value)) with
  | error e => rw [hm] at h; exact Except.noConfusion h
  | ok defs =>
    rw [hm] at h
    simp only [Except.ok.injEq, Prod.mk.injEq] at h
    obtain ⟨h1, h2⟩ := h
    subst h1
    exact List.Forall₂.imp
      (fun d defn hok hnone => by
        obtain ⟨hp, hr⟩ := getDefinitionForFragmentDefinition_path_eq _ _ _ _ hok
        rw [hnone] at hp hr
        exact ⟨hp, hr⟩)
      (mapDefs_forall₂ _ _ hm)

/-- C10 witness: one matched entry with `filePath` absent produces a
definition whose path and projectRoot are the empty string. -/
theorem getDefinitionQueryResultForFragmentSpread_missing_filePath_witness :
    List.Forall₂ (fun (d : FragmentInfo) (defn : Definition) => d.filePath = none →
        defn.path = "" ∧ defn.projectRoot = "")
      ([({ filePath := none, content := "fragment F on T",
           definition := { name := { value := "F",
                                     loc := some { start := 9, endPos := 10 } },
                           loc := { start := 0, endPos := 15 } } } :
          FragmentInfo)].filter
        (fun d => d.definition.name.value == "F"))
      [{ path := "", position := { row := 0, column := 9 },
         range := { start := { row := 0, column := 0 },
                    endPos := { row := 0, column := 15 } },
         name := "F", language := "GraphQL", projectRoot := "" }] :=
  getDefinitionQueryResultForFragmentSpread_missing_filePath "F"
    { name := { value := "F", loc := some { start := 0, endPos := 1 } },
      loc := { start := 0, endPos := 1 } }
    [{ filePath := none, content := "fragment F on T",
       definition := { name := { value := "F",
                                 loc := some { start := 9, endPos := 10 } },
                       loc := { start := 0, endPos := 15 } } }]
    { definitions :=
        [{ path := "", position := { row := 0, column := 9 },
           range := { start := { row := 0, column := 0 },
                      endPos := { row := 0, column := 15 } },
           name := "F", language := "GraphQL", projectRoot := "" }],
      queryRange := [{ start := { row := 0, column := 0 },
                       endPos := { row := 0, column := 1 } }] }
    [] rfl

end Nuclide
